import Mathlib

/-!
Shallow embedding of `src/utils/process_parking_lot.py`.

The module consists of a parking-space discoverer (`get_parking_spaces`,
built on DBSCAN clustering with `min_samples = 2` plus pandas group-by
aggregation) and an orderer (`get_order`, `apply_order`).

Modelling conventions:
* numeric values are rationals (`ℚ`);
* a pandas `DataFrame` is a `Table`: a list of column names plus rows of
  values aligned positionally with the names.  Column access (`df['c']`)
  is fallible (`Option`), mirroring `KeyError`;
* `get_parking_spaces` returns `Except Unit (List Space × Table)`: the
  `Except` layer models the exceptions Python raises (missing columns,
  `DBSCAN.fit` on an empty sample set), and the returned `Table` is the
  caller's frame after the call, making the in-place mutation
  `df['cluster'] = db.labels_` observable (state passing);
* sorting (pandas `sort_values`, group-by key ordering, medians) is
  modelled with `List.insertionSort`; no claim depends on the behaviour
  of the sort on equal keys;
* DBSCAN with `min_samples = 2` over closed `eps`-balls: a point is noise
  (label `-1`) iff it has no other point within distance `eps`; otherwise
  its cluster is the connected component of the `dist ≤ eps` graph, and
  component labels `0, 1, 2, …` are assigned scanning points in index
  order, as scikit-learn does.
-/

attribute [local semireducible] Rat.mul Rat.inv Rat.add Rat.sub Rat.ofScientific

/-- One detection row of the input table (columns used by the code). -/
structure Det where
  timestamp : ℚ
  cx : ℚ
  cy : ℚ
  x1 : ℚ
  y1 : ℚ
  x2 : ℚ
  y2 : ℚ
deriving DecidableEq

/-- One row of the discoverer's output `median_coords` (line 62). -/
structure Space where
  cx : ℚ
  cy : ℚ
  radius : ℚ
deriving DecidableEq

/-- One row of `apply_order`'s output: a `Space` plus the `space` index
column produced by `reset_index(names='space')` (line 122). -/
structure OrderedSpace where
  space : ℕ
  cx : ℚ
  cy : ℚ
  radius : ℚ
deriving DecidableEq

/-- Pandas median of a list of rationals: sort ascending; middle element
for odd length, mean of the two middle elements for even length. -/
def median (l : List ℚ) : ℚ :=
  let s := l.insertionSort (· ≤ ·)
  if l.length % 2 = 1 then s.getD (l.length / 2) 0
  else (s.getD (l.length / 2 - 1) 0 + s.getD (l.length / 2) 0) / 2

/-- Closed-ball neighbourhood test of DBSCAN: Euclidean distance between
`p` and `q` is at most `eps` (compared via squares). -/
def close (eps : ℚ) (p q : ℚ × ℚ) : Bool :=
  decide ((p.1 - q.1) ^ 2 + (p.2 - q.2) ^ 2 ≤ eps ^ 2)

/-- Flood fill of a cluster: repeatedly adjoin every point within `eps`
of the component.  `fuel = pts.length` reaches the fixpoint because each
round adds at least one new index. -/
def expandComponent (eps : ℚ) (pts : List (ℚ × ℚ)) : ℕ → List ℕ → List ℕ
  | 0, comp => comp
  | fuel + 1, comp =>
    let fresh := (List.range pts.length).filter
      (fun j => !(comp.contains j) &&
        comp.any (fun i => close eps (pts.getD i (0, 0)) (pts.getD j (0, 0))))
    if fresh.isEmpty then comp else expandComponent eps pts fuel (comp ++ fresh)

/-- With `min_samples = 2`, point `i` is a core point iff some other
sample index lies within `eps` of it (duplicates count separately). -/
def isCorePoint (eps : ℚ) (pts : List (ℚ × ℚ)) (i : ℕ) : Bool :=
  (List.range pts.length).any
    (fun j => j != i && close eps (pts.getD i (0, 0)) (pts.getD j (0, 0)))

/-- One step of the scan assigning DBSCAN labels: state is the list of
`(index, label)` assignments so far and the next fresh cluster id. -/
def dbscanStep (eps : ℚ) (pts : List (ℚ × ℚ)) (st : List (ℕ × ℤ) × ℤ) (i : ℕ) :
    List (ℕ × ℤ) × ℤ :=
  if (List.lookup i st.1).isSome then st
  else if isCorePoint eps pts i then
    let comp := expandComponent eps pts pts.length [i]
    (st.1 ++ comp.map (fun k => (k, st.2)), st.2 + 1)
  else (st.1 ++ [(i, -1)], st.2)

/-- Labels of `DBSCAN(eps=eps, min_samples=2).fit(pts)` (line 28): `-1`
for noise, cluster ids `0, 1, 2, …` in order of discovery. -/
def dbscanLabels (eps : ℚ) (pts : List (ℚ × ℚ)) : List ℤ :=
  let st := (List.range pts.length).foldl (dbscanStep eps pts) ([], 0)
  (List.range pts.length).map (fun i => (List.lookup i st.1).getD (-1))

/-- Member detections of cluster `c` in a labelled row list: the pandas
group `df[df['cluster'] == c]`. -/
def groupOf (lab : List (ℤ × Det)) (c : ℤ) : List Det :=
  (lab.filter (fun p => p.1 == c)).map Prod.snd

/-- The distinct cluster labels occurring in `lab`, in ascending order:
the group keys of `df.groupby('cluster')` (pandas sorts group keys). -/
def presentLabels (lab : List (ℤ × Det)) : List ℤ :=
  ((lab.map Prod.fst).dedup).insertionSort (· ≤ ·)

/-- Embeds `df['timestamp'].nunique()` (line 34). -/
def nuniqueTimestamps (dets : List Det) : ℕ :=
  ((dets.map Det.timestamp).dedup).length

/-- Embeds `df.groupby('cluster')['timestamp'].nunique()` at key `c` (line 40). -/
def clusterTsCount (lab : List (ℤ × Det)) (c : ℤ) : ℕ :=
  (((groupOf lab c).map Det.timestamp).dedup).length

/-- Embeds `total_frames = df['timestamp'].nunique()` over the labelled rows. -/
def total_frames (lab : List (ℤ × Det)) : ℕ :=
  nuniqueTimestamps (lab.map Prod.snd)

/-- Embeds `valid_clusters` (line 43): cluster keys whose distinct-timestamp
count is at least `total_frames * threshold`. -/
def validClusters (lab : List (ℤ × Det)) (thr : ℚ) : List ℤ :=
  (presentLabels lab).filter
    (fun c => decide ((total_frames lab : ℚ) * thr ≤ (clusterTsCount lab c : ℚ)))

/-- Embeds `df_filtered = df[df['cluster'].isin(valid_clusters)]` (line 46). -/
def dfFiltered (lab : List (ℤ × Det)) (thr : ℚ) : List (ℤ × Det) :=
  lab.filter (fun p => (validClusters lab thr).contains p.1)

/-- Embeds `width = x2 - x1` (line 49). -/
def detWidth (d : Det) : ℚ := d.x2 - d.x1

/-- Embeds `height = y2 - y1` (line 50). -/
def detHeight (d : Det) : ℚ := d.y2 - d.y1

/-- Embeds `median_centers = df_filtered.groupby('cluster')[['cx','cy']].median()`
(line 53): per group key, the medians of `cx` and `cy`. -/
def medianCenters (flab : List (ℤ × Det)) : List (ℤ × ℚ × ℚ) :=
  (presentLabels flab).map
    (fun c => (c, median ((groupOf flab c).map Det.cx),
                  median ((groupOf flab c).map Det.cy)))

/-- Embeds `median_width = df_filtered.groupby('cluster')['width'].median()`
(line 54). -/
def medianWidths (flab : List (ℤ × Det)) : List (ℤ × ℚ) :=
  (presentLabels flab).map (fun c => (c, median ((groupOf flab c).map detWidth)))

/-- Embeds `median_height = df_filtered.groupby('cluster')['height'].median()`
(line 55). -/
def medianHeights (flab : List (ℤ × Det)) : List (ℤ × ℚ) :=
  (presentLabels flab).map (fun c => (c, median ((groupOf flab c).map detHeight)))

/-- Embeds `pd.merge(median_width, median_height, on='cluster')` (line 57):
inner join of the two keyed lists on the cluster key. -/
def mergeOnCluster (ws hs : List (ℤ × ℚ)) : List (ℤ × ℚ × ℚ) :=
  ws.flatMap (fun w => (hs.filter (fun q => q.1 == w.1)).map (fun q => (w.1, w.2, q.2)))

/-- Embeds `x['width'] if x['width'] < x['height'] else x['height']` (line 58). -/
def minSide (w h : ℚ) : ℚ := if w < h then w else h

/-- The `sides['radius']` column (lines 57-59): per merged row,
`min_side * (space_size / 2)`. -/
def sidesRadius (flab : List (ℤ × Det)) (ssize : ℚ) : List ℚ :=
  (mergeOnCluster (medianWidths flab) (medianHeights flab)).map
    (fun p => minSide p.2.1 p.2.2 * (ssize / 2))

/-- Lines 46-62 of `get_parking_spaces`: filter to valid clusters, reduce
each group, and positionally concatenate the centre medians with the
radius column (`pd.concat(..., axis=1)` on default ranges aligns rows by
position). -/
def getSpacesFromLabeled (lab : List (ℤ × Det)) (thr ssize : ℚ) : List Space :=
  let flab := dfFiltered lab thr
  List.zipWith (fun c r => { cx := c.2.1, cy := c.2.2, radius := r })
    (medianCenters flab) (sidesRadius flab ssize)

/-- The descriptor the specification ascribes to an accepted cluster:
per-coordinate medians for the centre and
`min(median_width, median_height) * space_size / 2` for the radius,
all over the cluster's member detections. -/
def spaceOf (lab : List (ℤ × Det)) (ssize : ℚ) (c : ℤ) : Space :=
  { cx := median ((groupOf lab c).map Det.cx),
    cy := median ((groupOf lab c).map Det.cy),
    radius := minSide (median ((groupOf lab c).map detWidth))
                      (median ((groupOf lab c).map detHeight)) * (ssize / 2) }

/-- A pandas `DataFrame`: named columns and rows of values aligned
positionally with the column names. -/
structure Table where
  cols : List String
  rows : List (List ℚ)
deriving DecidableEq

/-- Position of column `c` in the schema, if present. -/
def colIdx (t : Table) (c : String) : Option ℕ :=
  t.cols.findIdx? (fun s => s == c)

/-- Embeds `df[c]`: the column's values, or `none` (a `KeyError`) if absent. -/
def getCol (t : Table) (c : String) : Option (List ℚ) :=
  (colIdx t c).map (fun i => t.rows.map (fun r => r.getD i 0))

/-- Embeds `df[c] = vals`: overwrite column `c` if present, else append it. -/
def addCol (t : Table) (c : String) (vals : List ℚ) : Table :=
  match colIdx t c with
  | some i => ⟨t.cols, (t.rows.zip vals).map (fun p => p.1.set i p.2)⟩
  | none => ⟨t.cols ++ [c], (t.rows.zip vals).map (fun p => p.1 ++ [p.2])⟩

/-- A table is well formed when every row has one value per column; every
pandas frame satisfies this. -/
def Table.Wf (t : Table) : Prop :=
  ∀ r ∈ t.rows, r.length = t.cols.length

/-- The columns `get_parking_spaces` reads from its input. -/
def requiredCols : List String :=
  ["timestamp", "cx", "cy", "x1", "y1", "x2", "y2"]

/-- Typed view of the input rows, one `Det` per row, from the seven
required columns. -/
def mkDets (ts cxs cys x1s y1s x2s y2s : List ℚ) : List Det :=
  (List.range ts.length).map (fun i =>
    { timestamp := ts.getD i 0, cx := cxs.getD i 0, cy := cys.getD i 0,
      x1 := x1s.getD i 0, y1 := y1s.getD i 0,
      x2 := x2s.getD i 0, y2 := y2s.getD i 0 })

/-- The typed detections of a table (meaningful when the required columns
are present, as `getCol` then returns `some`). -/
def tableDets (t : Table) : List Det :=
  mkDets ((getCol t "timestamp").getD []) ((getCol t "cx").getD [])
    ((getCol t "cy").getD []) ((getCol t "x1").getD []) ((getCol t "y1").getD [])
    ((getCol t "x2").getD []) ((getCol t "y2").getD [])

/-- The DBSCAN labels computed on the table's `(cx, cy)` points (line 28). -/
def tableLabels (t : Table) (eps : ℚ) : List ℤ :=
  dbscanLabels eps (((getCol t "cx").getD []).zip ((getCol t "cy").getD []))

/-- The labelled rows `df` carries after `df['cluster'] = db.labels_`. -/
def labeledRows (t : Table) (eps : ℚ) : List (ℤ × Det) :=
  (tableLabels t eps).zip (tableDets t)

/-- Embedding of the `ℤ → ℚ` coercion applied to the label column when
it is stored into the frame. -/
def ratOfInt (z : ℤ) : ℚ := z

/-- Embeds `get_parking_spaces(df, eps, threshold, space_size)` (lines 9-64).
Column reads of `timestamp, x1, y1, x2, y2` happen in Python after the
`cluster` column is added; adding `cluster` cannot change those columns,
so they are read from `t` here.  `.error` marks the calls on which Python
raises: a missing required column (`KeyError`) or an empty frame
(`DBSCAN.fit` rejects an empty sample set).  On success the result pairs
the returned `median_coords` rows with the caller's mutated frame. -/
def get_parking_spaces (t : Table) (eps thr ssize : ℚ) :
    Except Unit (List Space × Table) :=
  match getCol t "cx", getCol t "cy" with
  | some cxs, some cys =>
    if t.rows.isEmpty then .error () else
    let labels := dbscanLabels eps (cxs.zip cys)
    let t1 := addCol t "cluster" (labels.map ratOfInt)
    match getCol t "timestamp", getCol t "x1", getCol t "y1",
          getCol t "x2", getCol t "y2" with
    | some ts, some x1s, some y1s, some x2s, some y2s =>
      .ok (getSpacesFromLabeled (labels.zip (mkDets ts cxs cys x1s y1s x2s y2s))
             thr ssize, t1)
    | _, _, _, _, _ => .error ()
  | _, _ => .error ()

/-- Whether an `Except` computation failed. -/
def isErr {ε α : Type} : Except ε α → Bool
  | .error _ => true
  | .ok _ => false

/-- Embeds `spaces_width` (line 104): horizontal span of the space centres. -/
def spacesWidth (ps : List Space) : ℚ :=
  (ps.map Space.cx).foldl max ((ps.map Space.cx).headD 0)
    - (ps.map Space.cx).foldl min ((ps.map Space.cx).headD 0)

/-- Embeds `spaces_height` (line 105): vertical span of the space centres. -/
def spacesHeight (ps : List Space) : ℚ :=
  (ps.map Space.cy).foldl max ((ps.map Space.cy).headD 0)
    - (ps.map Space.cy).foldl min ((ps.map Space.cy).headD 0)

/-- Embeds `get_order` (lines 97-107): `True` (left-to-right) iff the horizontal
span strictly exceeds the vertical span. -/
def get_order (ps : List Space) : Bool :=
  decide (spacesHeight ps < spacesWidth ps)

/-- Embeds `apply_order` (lines 110-123): sort by ascending `cx` when
`order_left_right`, by descending `cy` otherwise, then move the fresh
positional index into the `space` column. -/
def apply_order (ps : List Space) (order_left_right : Bool) : List OrderedSpace :=
  let sorted := if order_left_right
    then ps.insertionSort (fun a b => a.cx ≤ b.cx)
    else ps.insertionSort (fun a b => b.cy ≤ a.cy)
  sorted.enum.map (fun p =>
    { space := p.1, cx := p.2.cx, cy := p.2.cy, radius := p.2.radius })

/-- The full pipeline as the repository composes it: discover spaces,
choose the layout axis, and order them. -/
def pipeline (t : Table) (eps thr ssize : ℚ) : Except Unit (List OrderedSpace) :=
  (get_parking_spaces t eps thr ssize).map
    (fun r => apply_order r.1 (get_order r.1))

/-! Helper lemmas about the embedded operations. -/

theorem presentLabels_sorted (lab : List (ℤ × Det)) :
    List.Sorted (· ≤ ·) (presentLabels lab) :=
  List.sorted_insertionSort _ _

theorem presentLabels_nodup (lab : List (ℤ × Det)) :
    (presentLabels lab).Nodup :=
  (List.perm_insertionSort _ _).symm.nodup (List.nodup_dedup _)

theorem mem_presentLabels (lab : List (ℤ × Det)) (c : ℤ) :
    c ∈ presentLabels lab ↔ ∃ p ∈ lab, p.1 = c := by
  unfold presentLabels
  rw [(List.perm_insertionSort _ _).mem_iff, List.mem_dedup, List.mem_map]

theorem mem_validClusters (lab : List (ℤ × Det)) (thr : ℚ) (c : ℤ) :
    c ∈ validClusters lab thr ↔
      c ∈ presentLabels lab ∧
        (total_frames lab : ℚ) * thr ≤ (clusterTsCount lab c : ℚ) := by
  unfold validClusters
  simp [List.mem_filter]

theorem validClusters_sorted (lab : List (ℤ × Det)) (thr : ℚ) :
    List.Sorted (· ≤ ·) (validClusters lab thr) :=
  (presentLabels_sorted lab).filter _

theorem validClusters_nodup (lab : List (ℤ × Det)) (thr : ℚ) :
    (validClusters lab thr).Nodup :=
  (presentLabels_nodup lab).filter _

theorem groupOf_dfFiltered (lab : List (ℤ × Det)) (thr : ℚ) (c : ℤ)
    (hc : c ∈ validClusters lab thr) :
    groupOf (dfFiltered lab thr) c = groupOf lab c := by
  unfold groupOf dfFiltered
  rw [List.filter_filter]
  congr 1
  apply List.filter_congr
  intro p _
  by_cases hp : p.1 = c
  · simp only [hp, beq_self_eq_true, Bool.true_and]
    exact List.elem_iff.mpr hc
  · simp [hp]

theorem presentLabels_dfFiltered (lab : List (ℤ × Det)) (thr : ℚ) :
    presentLabels (dfFiltered lab thr) = validClusters lab thr := by
  apply List.eq_of_perm_of_sorted _ (presentLabels_sorted _) (validClusters_sorted lab thr)
  rw [List.perm_ext_iff_of_nodup (presentLabels_nodup _) (validClusters_nodup lab thr)]
  intro c
  rw [mem_presentLabels, mem_validClusters, mem_presentLabels]
  constructor
  · rintro ⟨p, hp, rfl⟩
    unfold dfFiltered at hp
    rw [List.mem_filter] at hp
    have hv : p.1 ∈ validClusters lab thr := List.elem_iff.mp hp.2
    rw [mem_validClusters, mem_presentLabels] at hv
    exact hv
  · rintro ⟨⟨p, hp, rfl⟩, hcnt⟩
    refine ⟨p, ?_, rfl⟩
    unfold dfFiltered
    rw [List.mem_filter]
    refine ⟨hp, List.elem_iff.mpr ?_⟩
    rw [mem_validClusters, mem_presentLabels]
    exact ⟨⟨p, hp, rfl⟩, hcnt⟩

theorem filter_keyed_map_eq_nil (g : ℤ → ℚ) (Q : List ℤ) (c : ℤ) (hc : c ∉ Q) :
    (Q.map (fun d => (d, g d))).filter (fun q => q.1 == c) = [] := by
  induction Q with
  | nil => rfl
  | cons a Q ih =>
    simp only [List.mem_cons, not_or] at hc
    simp [List.filter_cons, Ne.symm hc.1, ih hc.2]

theorem filter_keyed_map_mem (g : ℤ → ℚ) (Q : List ℤ) (hQ : Q.Nodup) (c : ℤ)
    (hc : c ∈ Q) :
    (Q.map (fun d => (d, g d))).filter (fun q => q.1 == c) = [(c, g c)] := by
  induction Q with
  | nil => cases hc
  | cons a Q ih =>
    rw [List.nodup_cons] at hQ
    rcases List.mem_cons.mp hc with rfl | hmem
    · simp [filter_keyed_map_eq_nil g Q c hQ.1]
    · have hne : a ≠ c := fun h => hQ.1 (h ▸ hmem)
      simp [hne, ih hQ.2 hmem]

theorem mergeOnCluster_of_filter (ws hs : List (ℤ × ℚ)) (g : ℤ → ℚ)
    (hfil : ∀ w ∈ ws, hs.filter (fun q => q.1 == w.1) = [(w.1, g w.1)]) :
    mergeOnCluster ws hs = ws.map (fun w => (w.1, w.2, g w.1)) := by
  induction ws with
  | nil => rfl
  | cons w ws ih =>
    unfold mergeOnCluster
    rw [List.flatMap_cons, hfil w (List.mem_cons_self _ _)]
    unfold mergeOnCluster at ih
    rw [ih (fun w1 hw1 => hfil w1 (List.mem_cons_of_mem _ hw1))]
    simp

theorem mergeOnCluster_maps (P : List ℤ) (f g : ℤ → ℚ) (hP : P.Nodup) :
    mergeOnCluster (P.map (fun c => (c, f c))) (P.map (fun c => (c, g c)))
      = P.map (fun c => (c, f c, g c)) := by
  rw [mergeOnCluster_of_filter _ _ g ?_]
  · rw [List.map_map]
    rfl
  · intro w hw
    rw [List.mem_map] at hw
    obtain ⟨c, hcP, rfl⟩ := hw
    exact filter_keyed_map_mem g P hP c hcP

theorem getSpacesFromLabeled_eq (lab : List (ℤ × Det)) (thr ssize : ℚ) :
    getSpacesFromLabeled lab thr ssize
      = (validClusters lab thr).map (spaceOf lab ssize) := by
  unfold getSpacesFromLabeled sidesRadius medianCenters medianWidths medianHeights
  simp only []
  rw [presentLabels_dfFiltered,
    mergeOnCluster_maps _ _ _ (validClusters_nodup lab thr),
    List.map_map, List.zipWith_map, List.zipWith_same]
  apply List.map_congr_left
  intro c hc
  have hg := groupOf_dfFiltered lab thr c hc
  simp [spaceOf, hg, Function.comp]

theorem getSpacesFromLabeled_of_no_valid (lab : List (ℤ × Det)) (thr ssize : ℚ)
    (h : validClusters lab thr = []) :
    getSpacesFromLabeled lab thr ssize = [] := by
  rw [getSpacesFromLabeled_eq, h]
  rfl

theorem apply_order_map_space (ps : List Space) (b : Bool) :
    (apply_order ps b).map OrderedSpace.space = List.range ps.length := by
  unfold apply_order
  cases b <;>
    simp only [Bool.false_eq_true, if_false, if_true, List.map_map] <;>
    · have h : (OrderedSpace.space ∘ fun p : ℕ × Space =>
          OrderedSpace.mk p.1 p.2.cx p.2.cy p.2.radius) = Prod.fst := rfl
      rw [h, List.enum_map_fst, (List.perm_insertionSort _ _).length_eq]

theorem apply_order_map_cx (ps : List Space) :
    (apply_order ps true).map OrderedSpace.cx
      = (ps.insertionSort (fun a b => a.cx ≤ b.cx)).map Space.cx := by
  unfold apply_order
  simp only [if_true, List.map_map]
  have h : (OrderedSpace.cx ∘ fun p : ℕ × Space =>
      OrderedSpace.mk p.1 p.2.cx p.2.cy p.2.radius) = Space.cx ∘ Prod.snd := rfl
  rw [h, ← List.map_map, List.enum_map_snd]

theorem apply_order_map_cy (ps : List Space) :
    (apply_order ps false).map OrderedSpace.cy
      = (ps.insertionSort (fun a b => b.cy ≤ a.cy)).map Space.cy := by
  unfold apply_order
  simp only [Bool.false_eq_true, if_false, List.map_map]
  have h : (OrderedSpace.cy ∘ fun p : ℕ × Space =>
      OrderedSpace.mk p.1 p.2.cx p.2.cy p.2.radius) = Space.cy ∘ Prod.snd := rfl
  rw [h, ← List.map_map, List.enum_map_snd]

theorem apply_order_cx_sorted (ps : List Space) :
    ((apply_order ps true).map OrderedSpace.cx).Pairwise (· ≤ ·) := by
  rw [apply_order_map_cx, List.pairwise_map]
  haveI : IsTotal Space (fun a b => a.cx ≤ b.cx) := ⟨fun a b => le_total _ _⟩
  haveI : IsTrans Space (fun a b => a.cx ≤ b.cx) := ⟨fun _ _ _ h1 h2 => le_trans h1 h2⟩
  exact List.sorted_insertionSort _ ps

theorem apply_order_cy_sorted (ps : List Space) :
    ((apply_order ps false).map OrderedSpace.cy).Pairwise (fun a b => b ≤ a) := by
  rw [apply_order_map_cy, List.pairwise_map]
  haveI : IsTotal Space (fun a b => b.cy ≤ a.cy) := ⟨fun a b => (le_total _ _).symm⟩
  haveI : IsTrans Space (fun a b => b.cy ≤ a.cy) := ⟨fun _ _ _ h1 h2 => le_trans h2 h1⟩
  exact List.sorted_insertionSort _ ps

theorem apply_order_data_perm (ps : List Space) (b : Bool) :
    ((apply_order ps b).map (fun o => (o.cx, o.cy, o.radius))).Perm
      (ps.map (fun s => (s.cx, s.cy, s.radius))) := by
  unfold apply_order
  cases b <;>
    simp only [Bool.false_eq_true, if_false, if_true, List.map_map] <;>
    · have h : ((fun o : OrderedSpace => (o.cx, o.cy, o.radius)) ∘
          fun p : ℕ × Space => OrderedSpace.mk p.1 p.2.cx p.2.cy p.2.radius)
          = (fun s : Space => (s.cx, s.cy, s.radius)) ∘ Prod.snd := rfl
      rw [h, ← List.map_map, List.enum_map_snd]
      exact (List.perm_insertionSort _ _).map _

theorem get_order_of_eq_span (ps : List Space)
    (h : spacesWidth ps = spacesHeight ps) : get_order ps = false := by
  simp [get_order, h]

theorem minSide_eq_min (w h : ℚ) : minSide w h = min w h := by
  unfold minSide
  split
  · next hlt => exact (min_eq_left hlt.le).symm
  · next hge => exact (min_eq_right (not_lt.mp hge)).symm

/-- C1 (counterexample): two spaces with equal horizontal and vertical
spans (both 50) make `get_order` return `false` (bottom-to-top), and the
pipeline then orders them by descending `cy` — which here is descending
`cx` order, not the ascending-`cx` order the claim states. -/
theorem C1_tie_is_not_horizontal :
    spacesWidth [⟨0, 0, 1⟩, ⟨50, 50, 1⟩] = spacesHeight [⟨0, 0, 1⟩, ⟨50, 50, 1⟩]
    ∧ get_order [⟨0, 0, 1⟩, ⟨50, 50, 1⟩] = false
    ∧ apply_order [⟨0, 0, 1⟩, ⟨50, 50, 1⟩] (get_order [⟨0, 0, 1⟩, ⟨50, 50, 1⟩])
        = [⟨0, 50, 50, 1⟩, ⟨1, 0, 0, 1⟩] := by
  refine ⟨by decide, by decide, by decide⟩

/-- C1 (amended): whenever the horizontal span equals the vertical span
(including the single-space case where both are 0), the layout resolves
to vertical: `get_order` returns `false` and the spaces are sorted by
descending `cy`. -/
theorem C1_tie_resolves_vertical : ∀ ps : List Space,
    spacesWidth ps = spacesHeight ps →
    get_order ps = false
    ∧ ((apply_order ps (get_order ps)).map OrderedSpace.cy).Pairwise
        (fun a b => b ≤ a) := by
  intro ps h
  have hf := get_order_of_eq_span ps h
  exact ⟨hf, by rw [hf]; exact apply_order_cy_sorted ps⟩

/-- C1 (witness): the amended claim applied to the concrete tie above. -/
theorem C1_tie_resolves_vertical_witness :
    get_order [⟨0, 0, 1⟩, ⟨50, 50, 1⟩] = false
    ∧ ((apply_order [⟨0, 0, 1⟩, ⟨50, 50, 1⟩]
          (get_order [⟨0, 0, 1⟩, ⟨50, 50, 1⟩])).map OrderedSpace.cy).Pairwise
        (fun a b => b ≤ a) :=
  C1_tie_resolves_vertical [⟨0, 0, 1⟩, ⟨50, 50, 1⟩] (by decide)

/-- C3: for every accepted cluster the emitted `ParkingSpace` carries the
per-coordinate medians of the member detections' centres and radius
`min(median_width, median_height) * space_size / 2`, the two medians
taken independently over the cluster's members. -/
theorem C3_median_reduction : ∀ (lab : List (ℤ × Det)) (thr ssize : ℚ),
    getSpacesFromLabeled lab thr ssize = (validClusters lab thr).map (fun c =>
      { cx := median ((groupOf lab c).map Det.cx),
        cy := median ((groupOf lab c).map Det.cy),
        radius := min (median ((groupOf lab c).map detWidth))
                      (median ((groupOf lab c).map detHeight)) * ssize / 2 }) := by
  intro lab thr ssize
  rw [getSpacesFromLabeled_eq]
  apply List.map_congr_left
  intro c _
  simp [spaceOf, minSide_eq_min, mul_div_assoc]

/-- C5: `apply_order` sorts by ascending `cx` in the horizontal layout
and by descending `cy` in the vertical one, and assigns each space its
zero-based position in the sorted sequence. -/
theorem C5_sort_and_index : ∀ (ps : List Space) (b : Bool),
    ((apply_order ps true).map OrderedSpace.cx).Pairwise (· ≤ ·)
    ∧ ((apply_order ps false).map OrderedSpace.cy).Pairwise (fun a b => b ≤ a)
    ∧ (apply_order ps b).map OrderedSpace.space = List.range ps.length :=
  fun ps b =>
    ⟨apply_order_cx_sorted ps, apply_order_cy_sorted ps, apply_order_map_space ps b⟩

/-- C6: for every input with `n ≥ 0` spaces and either flag, the output
`space` column is exactly `0, 1, …, n-1`. -/
theorem C6_index_contiguity : ∀ (ps : List Space) (b : Bool),
    (apply_order ps b).map OrderedSpace.space = List.range ps.length :=
  fun ps b => apply_order_map_space ps b

/-- C8: the pipeline is a pure function of its inputs, so two invocations
on the same `(detections, eps, min_recurrence_fraction, space_size)`
produce identical output. -/
theorem C8_determinism : ∀ (t : Table) (eps thr ssize : ℚ),
    pipeline t eps thr ssize = pipeline t eps thr ssize :=
  fun _ _ _ _ => rfl

/-- C10: `apply_order` only reorders and indexes: the multiset of
`(cx, cy, radius)` rows is preserved for either flag. -/
theorem C10_apply_order_preserves_rows : ∀ (ps : List Space) (b : Bool),
    ((apply_order ps b).map (fun o => (o.cx, o.cy, o.radius))).Perm
      (ps.map (fun s => (s.cx, s.cy, s.radius))) :=
  fun ps b => apply_order_data_perm ps b

/-- C4: with `T` the number of distinct timestamps, a cluster present in
the data is accepted iff its distinct-timestamp count is at least
`min_recurrence_fraction * T`; hence a cluster present in exactly
`⌈thr * T⌉ - 1` distinct timestamps is rejected and one present in
exactly `⌈thr * T⌉` is accepted. -/
theorem C4_recurrence_threshold : ∀ (lab : List (ℤ × Det)) (thr : ℚ) (c : ℤ),
    c ∈ presentLabels lab →
    (c ∈ validClusters lab thr ↔
        thr * (total_frames lab : ℚ) ≤ (clusterTsCount lab c : ℚ))
    ∧ ((clusterTsCount lab c : ℤ) = ⌈thr * (total_frames lab : ℚ)⌉ - 1 →
        c ∉ validClusters lab thr)
    ∧ ((clusterTsCount lab c : ℤ) = ⌈thr * (total_frames lab : ℚ)⌉ →
        c ∈ validClusters lab thr) := by
  intro lab thr c hp
  have base : c ∈ validClusters lab thr ↔
      thr * (total_frames lab : ℚ) ≤ (clusterTsCount lab c : ℚ) :=
    (mem_validClusters lab thr c).trans (by rw [and_iff_right hp, mul_comm])
  refine ⟨base, ?_, ?_⟩
  · intro hcnt hmem
    have h1 := base.mp hmem
    have h2 : ⌈thr * (total_frames lab : ℚ)⌉ ≤ (clusterTsCount lab c : ℤ) := by
      rw [Int.ceil_le]
      push_cast
      exact h1
    omega
  · intro hcnt
    apply base.mpr
    have h3 : thr * (total_frames lab : ℚ)
        ≤ ((⌈thr * (total_frames lab : ℚ)⌉ : ℤ) : ℚ) := Int.le_ceil _
    rw [← hcnt] at h3
    push_cast at h3
    exact h3

/-- Two detections at the same point in consecutive frames, used as
concrete witnesses. -/
def detT0 : Det := ⟨0, 0, 0, 0, 0, 10, 10⟩

/-- Companion detection of `detT0` at timestamp 1. -/
def detT1 : Det := ⟨1, 0, 0, 0, 0, 10, 10⟩

/-- C4 (witness): in a two-frame input a cluster present in both frames
has count `2 = ⌈0.9 * 2⌉` and is accepted. -/
theorem C4_recurrence_threshold_witness :
    (0 : ℤ) ∈ validClusters [(0, detT0), (0, detT1)] (9 / 10) := by
  apply (C4_recurrence_threshold [(0, detT0), (0, detT1)] (9 / 10) 0 (by decide)).2.2
  have h1 : clusterTsCount [((0 : ℤ), detT0), (0, detT1)] 0 = 2 := by decide
  have h2 : total_frames [((0 : ℤ), detT0), (0, detT1)] = 2 := by decide
  rw [h1, h2, eq_comm, Int.ceil_eq_iff]
  push_cast
  norm_num

/-- A two-detection single-frame table whose two points are farther than
`eps` apart: DBSCAN marks both as noise (label `-1`). -/
def noiseTable : Table :=
  ⟨requiredCols, [[0, 0, 0, 0, 0, 10, 10], [0, 100, 0, 0, 0, 10, 10]]⟩

/-- C2 (failing input): on `noiseTable` both detections are DBSCAN noise,
yet the noise group passes the recurrence filter (it spans the single
timestamp) and `get_parking_spaces` emits a `ParkingSpace` aggregating
the noise points — the code never excludes the label `-1` group. -/
theorem C2_noise_group_emitted :
    tableLabels noiseTable 15 = [-1, -1]
    ∧ (-1 : ℤ) ∈ validClusters (labeledRows noiseTable 15) (9 / 10)
    ∧ get_parking_spaces noiseTable 15 (9 / 10) (1 / 2)
        = .ok ([⟨50, 0, 5 / 2⟩],
            ⟨requiredCols ++ ["cluster"],
             [[0, 0, 0, 0, 0, 10, 10, -1], [0, 100, 0, 0, 0, 10, 10, -1]]⟩) :=
  ⟨by decide, by decide, by rfl⟩

/-- C9 (counterexample): after a successful call on `noiseTable` the
caller's frame has gained a `cluster` column — the detection table is not
left unchanged. -/
theorem C9_input_table_mutated :
    get_parking_spaces noiseTable 15 (9 / 10) (1 / 2)
        = .ok ([⟨50, 0, 5 / 2⟩],
            ⟨requiredCols ++ ["cluster"],
             [[0, 0, 0, 0, 0, 10, 10, -1], [0, 100, 0, 0, 0, 10, 10, -1]]⟩)
    ∧ (⟨requiredCols ++ ["cluster"],
         [[0, 0, 0, 0, 0, 10, 10, -1], [0, 100, 0, 0, 0, 10, 10, -1]]⟩ : Table)
        ≠ noiseTable :=
  ⟨by rfl, by decide⟩

theorem isErr_get_parking_spaces (t : Table) (eps thr ssize : ℚ) :
    isErr (get_parking_spaces t eps thr ssize)
      = (t.rows.isEmpty || requiredCols.any (fun c => (getCol t c).isNone)) := by
  unfold get_parking_spaces
  by_cases hre : t.rows.isEmpty <;>
  rcases hts : getCol t "timestamp" with _ | ts <;>
  rcases hcx : getCol t "cx" with _ | cxs <;>
  rcases hcy : getCol t "cy" with _ | cys <;>
  rcases hx1 : getCol t "x1" with _ | x1s <;>
  rcases hy1 : getCol t "y1" with _ | y1s <;>
  rcases hx2 : getCol t "x2" with _ | x2s <;>
  rcases hy2 : getCol t "y2" with _ | y2s <;>
  simp [requiredCols, hts, hcx, hcy, hx1, hy1, hx2, hy2, hre, isErr]

/-- C7: the discoverer fails exactly when the detection table is empty or
lacks a required column; on valid input where no cluster meets the
recurrence threshold it succeeds with an empty space list. -/
theorem C7_failure_conditions : ∀ (t : Table) (eps thr ssize : ℚ),
    (isErr (get_parking_spaces t eps thr ssize) = true ↔
      (t.rows = [] ∨ ∃ c ∈ requiredCols, getCol t c = none))
    ∧ (∀ (sp : List Space) (t1 : Table),
        get_parking_spaces t eps thr ssize = .ok (sp, t1) →
        validClusters (labeledRows t eps) thr = [] → sp = []) := by
  intro t eps thr ssize
  constructor
  · rw [isErr_get_parking_spaces]
    simp [List.isEmpty_iff, List.any_eq_true, Option.isNone_iff_eq_none]
  · intro sp t1 hok hvalid
    rcases hts : getCol t "timestamp" with _ | ts <;>
    rcases hcx : getCol t "cx" with _ | cxs <;>
    rcases hcy : getCol t "cy" with _ | cys <;>
    rcases hx1 : getCol t "x1" with _ | x1s <;>
    rcases hy1 : getCol t "y1" with _ | y1s <;>
    rcases hx2 : getCol t "x2" with _ | x2s <;>
    rcases hy2 : getCol t "y2" with _ | y2s <;>
    by_cases hre : t.rows.isEmpty <;>
    simp [get_parking_spaces, hts, hcx, hcy, hx1, hy1, hx2, hy2, hre, isErr] at hok
    obtain ⟨hsp, ht1⟩ := hok
    have hlr : (dbscanLabels eps (cxs.zip cys)).zip
        (mkDets ts cxs cys x1s y1s x2s y2s) = labeledRows t eps := by
      unfold labeledRows tableLabels tableDets
      rw [hts, hcx, hcy, hx1, hy1, hx2, hy2]
      simp
    rw [← hsp, hlr]
    exact getSpacesFromLabeled_of_no_valid _ thr ssize hvalid

/-- A four-detection, two-frame table: two clusters, each present in only
one of the two frames, so neither meets the 0.9 recurrence threshold. -/
def twoClusterTable : Table :=
  ⟨requiredCols, [[0, 0, 0, 0, 0, 10, 10], [0, 5, 0, 0, 0, 10, 10],
                  [1, 1000, 0, 0, 0, 10, 10], [1, 1005, 0, 0, 0, 10, 10]]⟩

/-- C7 (witness): on `twoClusterTable` the input is valid, so by the
failure characterization the call does not error, and since no cluster
meets the threshold the space list is empty. -/
theorem C7_failure_conditions_witness :
    (¬ (twoClusterTable.rows = []
        ∨ ∃ c ∈ requiredCols, getCol twoClusterTable c = none))
    ∧ ([] : List Space) = [] := by
  constructor
  · intro hbad
    exact absurd ((C7_failure_conditions twoClusterTable 15 (9 / 10) (1 / 2)).1.mpr hbad)
      (by decide)
  · exact (C7_failure_conditions twoClusterTable 15 (9 / 10) (1 / 2)).2 []
      (addCol twoClusterTable "cluster" [0, 0, 1, 1]) (by rfl) (by decide)

theorem findIdx?_some_spec (p : String → Bool) (l : List String) (j : ℕ)
    (h : l.findIdx? p = some j) : j < l.length ∧ p (l.getD j "") = true := by
  rw [List.findIdx?_eq_some_iff_getElem] at h
  obtain ⟨hlt, hp, _⟩ := h
  refine ⟨hlt, ?_⟩
  rwa [List.getD_eq_getElem?_getD, List.getElem?_eq_getElem hlt]

theorem getD_set_ne (r : List ℚ) (i j : ℕ) (hij : i ≠ j) (v : ℚ) :
    (r.set i v).getD j 0 = r.getD j 0 := by
  rw [List.getD_eq_getElem?_getD, List.getD_eq_getElem?_getD,
    List.getElem?_set_ne hij]

theorem zip_set_getD (rows : List (List ℚ)) (vals : List ℚ) (i j : ℕ)
    (hij : i ≠ j) (hlen : vals.length = rows.length) :
    ((rows.zip vals).map (fun p => p.1.set i p.2)).map (fun r => r.getD j 0)
      = rows.map (fun r => r.getD j 0) := by
  induction rows generalizing vals with
  | nil => rfl
  | cons r rows ih =>
    cases vals with
    | nil => simp at hlen
    | cons v vals =>
      simp only [List.zip_cons_cons, List.map_cons]
      rw [getD_set_ne r i j hij v, ih vals (by simpa using hlen)]

theorem zip_append_getD (rows : List (List ℚ)) (vals : List ℚ) (j : ℕ)
    (hlen : vals.length = rows.length) (hj : ∀ r ∈ rows, j < r.length) :
    ((rows.zip vals).map (fun p => p.1 ++ [p.2])).map (fun r => r.getD j 0)
      = rows.map (fun r => r.getD j 0) := by
  induction rows generalizing vals with
  | nil => rfl
  | cons r rows ih =>
    cases vals with
    | nil => simp at hlen
    | cons v vals =>
      simp only [List.zip_cons_cons, List.map_cons]
      rw [ih vals (by simpa using hlen)
        (fun r1 hr1 => hj r1 (List.mem_cons_of_mem _ hr1))]
      have hjr : j < r.length := hj r (List.mem_cons_self _ _)
      simp [List.getD_eq_getElem?_getD, List.getElem?_append, hjr]

theorem colIdx_addCol_ne (t : Table) (name c : String) (hnc : c ≠ name)
    (vals : List ℚ) :
    colIdx (addCol t name vals) c = colIdx t c := by
  unfold addCol
  cases hi : colIdx t name with
  | some i => rfl
  | none =>
    show List.findIdx? (fun s => s == c) (t.cols ++ [name]) = colIdx t c
    unfold colIdx
    rw [List.findIdx?_append]
    have h1 : List.findIdx? (fun s => s == c) [name] = none := by
      simp [List.findIdx?_cons, Ne.symm hnc]
    rw [h1]
    simp

theorem getCol_addCol_ne (t : Table) (name c : String) (hnc : c ≠ name)
    (vals : List ℚ) (hlen : vals.length = t.rows.length) (hwf : t.Wf) :
    getCol (addCol t name vals) c = getCol t c := by
  unfold getCol
  rw [colIdx_addCol_ne t name c hnc vals]
  cases hj : colIdx t c with
  | none => rfl
  | some j =>
    simp only [Option.map_some']
    have hjspec := findIdx?_some_spec _ _ _ hj
    congr 1
    unfold addCol
    cases hi : colIdx t name with
    | some i =>
      have hispec := findIdx?_some_spec _ _ _ hi
      have hij : i ≠ j := by
        intro e
        subst e
        have e1 : t.cols.getD i "" = name := by simpa using hispec.2
        have e2 : t.cols.getD i "" = c := by simpa using hjspec.2
        exact hnc (e2 ▸ e1)
      exact zip_set_getD t.rows vals i j hij hlen
    | none =>
      refine zip_append_getD t.rows vals j hlen ?_
      intro r hr
      rw [hwf r hr]
      exact hjspec.1

theorem getCol_some_length (t : Table) (c : String) (v : List ℚ)
    (h : getCol t c = some v) : v.length = t.rows.length := by
  unfold getCol at h
  cases hci : colIdx t c with
  | none => rw [hci] at h; cases h
  | some i =>
    rw [hci] at h
    simp only [Option.map_some'] at h
    cases h
    simp

theorem dbscanLabels_length (eps : ℚ) (pts : List (ℚ × ℚ)) :
    (dbscanLabels eps pts).length = pts.length := by
  simp [dbscanLabels]

/-- C9 (amended): a successful `get_parking_spaces` call leaves the
caller's table equal to the input with a `cluster` column holding the
DBSCAN labels written into it (added, or overwritten if already
present); every other pre-existing column is unchanged.  The returned
space list itself is a fresh value sharing no table state. -/
theorem C9_discoverer_mutates_cluster_column : ∀ (t : Table) (eps thr ssize : ℚ)
    (sp : List Space) (t1 : Table), t.Wf →
    get_parking_spaces t eps thr ssize = .ok (sp, t1) →
    t1 = addCol t "cluster" ((tableLabels t eps).map ratOfInt)
    ∧ ∀ c ∈ t.cols, c ≠ "cluster" → getCol t1 c = getCol t c := by
  intro t eps thr ssize sp t1 hwf hok
  rcases hts : getCol t "timestamp" with _ | ts <;>
  rcases hcx : getCol t "cx" with _ | cxs <;>
  rcases hcy : getCol t "cy" with _ | cys <;>
  rcases hx1 : getCol t "x1" with _ | x1s <;>
  rcases hy1 : getCol t "y1" with _ | y1s <;>
  rcases hx2 : getCol t "x2" with _ | x2s <;>
  rcases hy2 : getCol t "y2" with _ | y2s <;>
  by_cases hre : t.rows.isEmpty <;>
  simp only [get_parking_spaces, hts, hcx, hcy, hx1, hy1, hx2, hy2, hre,
    Bool.false_eq_true, if_false, if_true, reduceCtorEq, Except.ok.injEq,
    Prod.mk.injEq] at hok
  obtain ⟨hsp, ht1⟩ := hok
  have hlabels : tableLabels t eps = dbscanLabels eps (cxs.zip cys) := by
    unfold tableLabels
    rw [hcx, hcy]
    rfl
  have hlen : ((dbscanLabels eps (cxs.zip cys)).map ratOfInt).length
      = t.rows.length := by
    rw [List.length_map, dbscanLabels_length, List.length_zip,
      getCol_some_length t "cx" cxs hcx, getCol_some_length t "cy" cys hcy,
      Nat.min_self]
  subst ht1
  constructor
  · rw [hlabels]
  · intro c hc hne
    rw [hlabels] at *
    exact getCol_addCol_ne t "cluster" c hne _ hlen hwf

/-- C9 (witness): the amended mutation description applied to the
concrete `noiseTable` run: the pre-existing `cx` column is unchanged in
the caller's mutated frame. -/
theorem C9_discoverer_mutates_cluster_column_witness :
    getCol (addCol noiseTable "cluster" [-1, -1]) "cx" = getCol noiseTable "cx" := by
  have h := C9_discoverer_mutates_cluster_column noiseTable 15 (9 / 10) (1 / 2)
    [⟨50, 0, 5 / 2⟩] (addCol noiseTable "cluster" [-1, -1])
    (by unfold Table.Wf; decide) (by rfl)
  exact h.2 "cx" (by decide) (by decide)
